import Mathlib

/-!
Shallow embedding of `src/convert_svelte_files.py` (function `create_text_files`).

The script walks the current directory with `os.walk('.')`, skips any walk
root whose path string contains `'text_files'` (Python substring test
`'text_files' in root`), and for every remaining file whose name ends with
`'.svelte'` computes a flattened destination name, reads the source as UTF-8
text, and writes the content verbatim to `text_files/<flattened name>`,
catching any per-file exception and printing an error line instead.

Modelling choices:
- Strings are `List Char` (Python `str.replace` with one-character pattern
  and replacement is exactly `List.map`; slicing `[:-7]` is
  `take (length - 7)`; `endswith` is `isSuffixOf`; `in` on strings is
  `isInfixOf`).
- A directory entry seen by the walk is an `Entry`: the directory path
  relative to the root as a list of components (`[]` for the root itself),
  the file name, the result of reading the file (a `ReadResult`, whose
  `.error` case is the exception a decoding or I/O failure raises inside
  the `try`), and an optional write-failure message.
- The walk is a list of entries in traversal order (the order `os.walk`
  yields, which the script does not constrain).
- The `text_files` directory is a `Store`: a map from destination file name
  to content; `open(..., 'w')` followed by a full write is `writeStore`
  (replace any existing value). A failed read or write leaves the store
  unchanged and appends an `Error processing` log line, matching the
  `except` block.
-/

/-- The fixed source suffix `'.svelte'`. -/
def svelteSuffix : List Char := ".svelte".data

/-- The fixed output extension `'.txt'`. -/
def txtExt : List Char := ".txt".data

/-- The output directory name `'text_files'`. -/
def outDirName : List Char := "text_files".data

/-- Python `s.replace(a, b)` for a one-character pattern and replacement:
replace every occurrence of the character `a` by `b`. -/
def replaceChar (a b : Char) (s : List Char) : List Char :=
  s.map (fun c => if c = a then b else c)

/-- `.replace('/', '_').replace('\\', '_')` from line 29 of the script. -/
def deSep (s : List Char) : List Char :=
  replaceChar '\\' '_' (replaceChar '/' '_' s)

/-- Join path components with a separator, as `str(Path(...))` renders a
relative path (`str(Path('a/b')) = 'a/b'`). -/
def joinSep (sep : List Char) : List (List Char) → List Char
  | [] => []
  | [d] => d
  | d :: ds => d ++ sep ++ joinSep sep ds

/-- The `root` string `os.walk('.')` yields for a directory whose path
relative to the working directory has the given components: `'.'` for the
root itself, `'./a/b'` below it. -/
def rootString (dirs : List (List Char)) : List Char :=
  if dirs = [] then ['.'] else ['.', '/'] ++ joinSep ['/'] dirs

/-- Line 13 of the script: `if 'text_files' in root` — Python substring
containment of `'text_files'` in the walk-root string. -/
def skippedRoot (dirs : List (List Char)) : Bool :=
  decide (outDirName <:+: rootString dirs)

/-- Line 18: `file.endswith('.svelte')`. -/
def matchesSuffix (name : List Char) : Bool :=
  svelteSuffix.isSuffixOf name

/-- `file[:-7]`: drop the last 7 characters (all of them when the name is
shorter). -/
def stem (name : List Char) : List Char :=
  name.take (name.length - 7)

/-- Lines 24–29: the flattened destination file name. For a file directly
in the root it is `file[:-7] + '.txt'`; otherwise it is
`f"{relative_path}_{file[:-7]}"` with every `'/'` and `'\\'` replaced by
`'_'`, then `'.txt'` appended. -/
def newFilename (dirs : List (List Char)) (name : List Char) : List Char :=
  if dirs = [] then stem name ++ txtExt
  else deSep (joinSep ['/'] dirs ++ ['_'] ++ stem name) ++ txtExt

/-- The outcome of `source.read()` inside the `try`: either the decoded
content, or the message of the exception the read raised. -/
inductive ReadResult where
  | ok (content : List Char)
  | error (msg : List Char)
deriving DecidableEq

/-- A directory entry visited by the walk, together with the outcome the
environment gives its read and its write. -/
structure Entry where
  dirs : List (List Char)
  name : List Char
  readResult : ReadResult
  writeErr : Option (List Char)
deriving DecidableEq

/-- `source_path = Path(root) / file`, as `pathlib` renders it (a leading
`'.'` component is normalised away). -/
def srcPath (e : Entry) : List Char :=
  if e.dirs = [] then e.name else joinSep ['/'] e.dirs ++ ['/'] ++ e.name

/-- `output_path = output_dir / new_filename`. -/
def outPath (e : Entry) : List Char :=
  outDirName ++ ['/'] ++ newFilename e.dirs e.name

/-- One console line of the script: `Created {output_path}` or
`Error processing {source_path}: {str(e)}`. -/
inductive LogEntry where
  | created (path : List Char)
  | errorProcessing (src : List Char) (msg : List Char)
deriving DecidableEq

/-- The state of the `text_files` directory: destination name ↦ content. -/
def Store : Type := List Char → Option (List Char)

/-- `open(output_path, 'w')` followed by writing `content`: the destination
name now maps to exactly that content, any prior file replaced. -/
def writeStore (st : Store) (k v : List Char) : Store :=
  fun q => if q = k then some v else st q

/-- Lines 34–41: process one matched file. Read the source; on success
write the content to the flattened destination and log `Created`; on a
read or write failure leave the store as it is and log
`Error processing`. -/
def processEntry (acc : Store × List LogEntry) (e : Entry) : Store × List LogEntry :=
  match e.readResult with
  | .error m => (acc.1, acc.2 ++ [.errorProcessing (srcPath e) m])
  | .ok c =>
    match e.writeErr with
    | some m => (acc.1, acc.2 ++ [.errorProcessing (srcPath e) m])
    | none =>
      (writeStore acc.1 (newFilename e.dirs e.name) c,
       acc.2 ++ [.created (outPath e)])

/-- Lines 11–18: the files the walk actually processes — every entry whose
walk root does not contain `'text_files'` as a substring and whose name
ends with `'.svelte'`, in traversal order. -/
def matchedEntries (tree : List Entry) : List Entry :=
  tree.filter (fun e => !skippedRoot e.dirs && matchesSuffix e.name)

/-- The whole run of `create_text_files` over a walk `tree`, starting from
an existing output-directory state `init`: fold `processEntry` over the
matched entries, collecting console lines. -/
def createTextFiles (tree : List Entry) (init : Store) : Store × List LogEntry :=
  (matchedEntries tree).foldl processEntry (init, [])

/-- The console line an entry produces: `Created` when both the read and
the write succeed, `Error processing` with the source path and the
exception message otherwise. -/
def logOf (e : Entry) : LogEntry :=
  match e.readResult with
  | .error m => .errorProcessing (srcPath e) m
  | .ok _ =>
    match e.writeErr with
    | some m => .errorProcessing (srcPath e) m
    | none => .created (outPath e)

/-- The content an entry successfully writes to destination name `k`, if
any. -/
def writesVal (e : Entry) (k : List Char) : Option (List Char) :=
  match e.readResult, e.writeErr with
  | .ok c, none => if newFilename e.dirs e.name = k then some c else none
  | _, _ => none

/-- The content of the last successful write to destination name `k` in a
run over `es`, if any write to `k` succeeds (a later entry's write wins). -/
def lastVal (es : List Entry) (k : List Char) : Option (List Char) :=
  match es with
  | [] => none
  | e :: es =>
    match lastVal es k with
    | some c => some c
    | none => writesVal e k

/-- An empty output directory, for concrete runs. -/
def emptyStore : Store := fun _ => none

/-- The destination name of claim C3, read literally: separators replaced
in the relative directory path only, the base name appended untouched. -/
def claimedSubdirName (dirs : List (List Char)) (name : List Char) : List Char :=
  deSep (joinSep ['/'] dirs) ++ ['_'] ++ stem name ++ txtExt

/-- The path-component reading of the exclusion rule in claim C2:
`'text_files'` is one of the components of the walk root's relative
path. -/
def componentSkip (dirs : List (List Char)) : Bool :=
  decide (outDirName ∈ dirs)

theorem deSep_append (s t : List Char) : deSep (s ++ t) = deSep s ++ deSep t := by
  simp [deSep, replaceChar]

theorem deSep_joinSep (l : List (List Char)) :
    deSep (joinSep ['/'] l) = joinSep ['_'] (l.map deSep) := by
  induction l with
  | nil => rfl
  | cons d ds ih =>
    cases ds with
    | nil => rfl
    | cons e t =>
      simp only [joinSep, List.map_cons, deSep_append] at ih ⊢
      rw [ih]
      rfl

theorem stem_append_suffix (b : List Char) : stem (b ++ svelteSuffix) = b := by
  have h7 : svelteSuffix.length = 7 := by decide
  simp [stem, h7, List.take_left]

theorem seg_append_left (s : List Char) {a t : List Char} (h : a <:+: t) :
    a <:+: s ++ t := by
  obtain ⟨u, v, huv⟩ := h
  exact ⟨s ++ u, v, by rw [← huv]; simp⟩

theorem mem_seg_joinSep (sep a : List Char) :
    ∀ l : List (List Char), a ∈ l → a <:+: joinSep sep l := by
  intro l
  induction l with
  | nil => intro h; cases h
  | cons d ds ih =>
    intro h
    rcases List.mem_cons.mp h with h | h
    · subst h
      cases ds with
      | nil => exact List.infix_refl a
      | cons e t => exact ⟨[], sep ++ joinSep sep (e :: t), by simp [joinSep]⟩
    · have hds : a <:+: joinSep sep ds := ih h
      cases ds with
      | nil => cases h
      | cons e t =>
        have : a <:+: sep ++ joinSep sep (e :: t) := seg_append_left sep hds
        simpa [joinSep] using seg_append_left d this

theorem skippedRoot_of_component {dirs : List (List Char)}
    (h : outDirName ∈ dirs) : skippedRoot dirs = true := by
  have hne : dirs ≠ [] := by rintro rfl; cases h
  have : outDirName <:+: rootString dirs := by
    rw [rootString, if_neg hne]
    exact seg_append_left ['.', '/'] (mem_seg_joinSep ['/'] outDirName dirs h)
  simpa [skippedRoot] using this

/-- C4: a matched file directly in the root is written to
`<basename-without-suffix>.txt`: for any base `b`, the file `b.svelte` in
the root maps to destination name `b.txt`. -/
theorem root_file_destination (b : List Char) :
    newFilename [] (b ++ svelteSuffix) = b ++ txtExt := by
  simp [newFilename, stem_append_suffix]

/-- C10: the file named exactly `.svelte` is matched and maps to `.txt` in
the root and to `a_.txt` under directory `a`; only the final 7 characters
are removed, so `a.svelte.svelte` maps to `a.svelte.txt`; a name lacking
the dot, like `svelte`, is not matched. -/
theorem suffix_matching_edge_cases :
    matchesSuffix svelteSuffix = true ∧
    newFilename [] svelteSuffix = txtExt ∧
    newFilename ["a".data] svelteSuffix = "a_.txt".data ∧
    newFilename [] "a.svelte.svelte".data = "a.svelte.txt".data ∧
    matchesSuffix "svelte".data = false := by
  decide

/-- C3 as stated is false: for the file `a\b.svelte` under directory `d`
the script replaces the backslash inside the base name as well, producing
`d_a_b.txt`, while the claim's destination (separators replaced in the
directory path only) is `d_a\b.txt`. -/
theorem subdir_name_counterexample :
    newFilename ["d".data] "a\\b.svelte".data
        ≠ claimedSubdirName ["d".data] "a\\b.svelte".data ∧
    newFilename ["d".data] "a\\b.svelte".data = "d_a_b.txt".data := by
  decide

/-- C3 amended: for a matched file in a subdirectory, the destination name
is the relative directory path with every path separator (`'/'` or `'\\'`)
replaced by an underscore, an underscore, and the base name with the
suffix dropped and every path separator in it likewise replaced, then
`.txt` — the separator replacement covers the base name too. -/
theorem subdir_destination_flattened (dirs : List (List Char)) (name : List Char)
    (h : dirs ≠ []) :
    newFilename dirs name
      = joinSep ['_'] (dirs.map deSep) ++ ['_'] ++ deSep (stem name) ++ txtExt := by
  have h1 : deSep ('_' :: stem name) = '_' :: deSep (stem name) := by
    simp [deSep, replaceChar]
  simp [newFilename, if_neg h, deSep_append, deSep_joinSep, h1]

/-- Witness for C3's amended theorem at `components/Button.svelte`. -/
theorem subdir_destination_flattened_witness :
    newFilename ["components".data] "Button.svelte".data
      = joinSep ['_'] (["components".data].map deSep) ++ ['_']
          ++ deSep (stem "Button.svelte".data) ++ txtExt :=
  subdir_destination_flattened ["components".data] "Button.svelte".data (by decide)

theorem processEntry_store_step (acc : Store × List LogEntry) (e : Entry) (k : List Char) :
    (processEntry acc e).1 k
      = match writesVal e k with | some c => some c | none => acc.1 k := by
  cases hr : e.readResult with
  | error m => simp [processEntry, hr, writesVal]
  | ok c =>
    cases hw : e.writeErr with
    | some m => simp [processEntry, hr, hw, writesVal]
    | none =>
      by_cases hk : newFilename e.dirs e.name = k
      · simp [processEntry, hr, hw, writesVal, writeStore, hk]
      · have hk2 : ¬ k = newFilename e.dirs e.name := fun h => hk h.symm
        simp [processEntry, hr, hw, writesVal, writeStore, hk, hk2]

theorem processEntry_log_step (acc : Store × List LogEntry) (e : Entry) :
    (processEntry acc e).2 = acc.2 ++ [logOf e] := by
  cases hr : e.readResult with
  | error m => simp [processEntry, hr, logOf]
  | ok c =>
    cases hw : e.writeErr with
    | some m => simp [processEntry, hr, hw, logOf]
    | none => simp [processEntry, hr, hw, logOf]

theorem run_store (es : List Entry) (acc : Store × List LogEntry) (k : List Char) :
    (es.foldl processEntry acc).1 k
      = match lastVal es k with | some c => some c | none => acc.1 k := by
  induction es generalizing acc with
  | nil => simp [lastVal]
  | cons e es ih =>
    rw [List.foldl_cons, ih]
    show _ = (match lastVal (e :: es) k with | some c => some c | none => acc.1 k)
    rw [show lastVal (e :: es) k
          = (match lastVal es k with | some c => some c | none => writesVal e k) from rfl,
        processEntry_store_step]
    cases lastVal es k with
    | some c => rfl
    | none => cases writesVal e k <;> rfl

theorem run_log (es : List Entry) (acc : Store × List LogEntry) :
    (es.foldl processEntry acc).2 = acc.2 ++ es.map logOf := by
  induction es generalizing acc with
  | nil => simp
  | cons e es ih =>
    rw [List.foldl_cons, ih, processEntry_log_step]
    simp

theorem lastVal_append (es fs : List Entry) (k : List Char) :
    lastVal (es ++ fs) k
      = match lastVal fs k with | some c => some c | none => lastVal es k := by
  induction es with
  | nil => simp [lastVal]; cases lastVal fs k <;> rfl
  | cons e es ih =>
    show (match lastVal (es ++ fs) k with | some c => some c | none => writesVal e k) = _
    rw [ih]
    cases lastVal fs k with
    | some c => rfl
    | none => rfl

theorem lastVal_eq_none (es : List Entry) (k : List Char)
    (h : ∀ e ∈ es, writesVal e k = none) : lastVal es k = none := by
  induction es with
  | nil => rfl
  | cons e es ih =>
    show (match lastVal es k with | some c => some c | none => writesVal e k) = none
    rw [ih fun x hx => h x (List.mem_cons_of_mem e hx), h e (List.mem_cons_self e es)]

/-- C1: the content read from a matched source file is written verbatim —
after the write step for an entry whose read and write both succeed, the
destination name maps to exactly the content that was read. -/
theorem written_content_verbatim (acc : Store × List LogEntry) (e : Entry) (c : List Char)
    (hread : e.readResult = ReadResult.ok c) (hwrite : e.writeErr = none) :
    (processEntry acc e).1 (newFilename e.dirs e.name) = some c := by
  simp [processEntry, hread, hwrite, writeStore]

/-- Witness for C1 at the root file `a.svelte` with content `hello`. -/
theorem written_content_verbatim_witness :
    (processEntry (emptyStore, [])
        ⟨[], "a.svelte".data, ReadResult.ok "hello".data, none⟩).1
        (newFilename [] "a.svelte".data)
      = some "hello".data :=
  written_content_verbatim (emptyStore, [])
    ⟨[], "a.svelte".data, ReadResult.ok "hello".data, none⟩ "hello".data rfl rfl

/-- C5: every matched file is processed and produces exactly one console
line, in traversal order — `Created` on success, `Error processing` with
the source path and the exception message on a read or write failure — so
no per-file failure drops any later matched file from the run. -/
theorem every_matched_file_logged (tree : List Entry) (init : Store) :
    (createTextFiles tree init).2 = (matchedEntries tree).map logOf := by
  rw [show (createTextFiles tree init).2
        = ((matchedEntries tree).foldl processEntry (init, [])).2 from rfl,
      run_log]
  rfl

/-- C9: when reading a matched source file fails, the output store is left
entirely unchanged — in particular the destination name for that source is
neither created nor modified — and the error line is logged instead. -/
theorem read_failure_preserves_store (acc : Store × List LogEntry) (e : Entry)
    (m : List Char) (h : e.readResult = ReadResult.error m) :
    (processEntry acc e).1 = acc.1 := by
  simp [processEntry, h]

/-- Witness for C9 at a root file whose read raises a decode error. -/
theorem read_failure_preserves_store_witness :
    (processEntry (emptyStore, [])
        ⟨[], "bad.svelte".data, ReadResult.error "decode".data, none⟩).1
      = emptyStore :=
  read_failure_preserves_store (emptyStore, [])
    ⟨[], "bad.svelte".data, ReadResult.error "decode".data, none⟩ "decode".data rfl

/-- C2 as stated is false: the script's test `'text_files' in root` is a
substring test, so the directory `text_files_backup` — whose path has no
component equal to `text_files` — is skipped, and the matched-suffix file
`a.svelte` inside it is not processed. -/
theorem exclusion_by_component_counterexample :
    componentSkip ["text_files_backup".data] = false ∧
    matchesSuffix "a.svelte".data = true ∧
    matchedEntries
        [⟨["text_files_backup".data], "a.svelte".data, ReadResult.ok "x".data, none⟩]
      = [] := by
  decide

/-- C2 amended: a file is processed exactly when its name ends with the
suffix and its walk-root path does not contain `text_files` as a
substring; every path with `text_files` as a component is among the
skipped ones (but so are paths like `text_files_backup`). -/
theorem exclusion_is_substring_match :
    (∀ (tree : List Entry) (e : Entry),
        e ∈ matchedEntries tree
          ↔ e ∈ tree ∧ skippedRoot e.dirs = false ∧ matchesSuffix e.name = true) ∧
    (∀ dirs : List (List Char), outDirName ∈ dirs → skippedRoot dirs = true) := by
  constructor
  · intro tree e
    simp [matchedEntries, List.mem_filter, and_assoc, Bool.and_eq_true,
      Bool.not_eq_true']
  · intro dirs h
    exact skippedRoot_of_component h

/-- Witness for C2's amended theorem: a file under `src` is processed, and
a path with the component `text_files` is skipped. -/
theorem exclusion_is_substring_match_witness :
    ((⟨["src".data], "a.svelte".data, ReadResult.ok [], none⟩ : Entry)
        ∈ matchedEntries [⟨["src".data], "a.svelte".data, ReadResult.ok [], none⟩]) ∧
    skippedRoot [outDirName] = true :=
  ⟨(exclusion_is_substring_match.1 _ _).mpr ⟨by decide, by decide, by decide⟩,
   exclusion_is_substring_match.2 [outDirName] (by decide)⟩

/-- C6: no file inside the output directory is ever matched: an entry whose
relative directory path starts with the `text_files` component is never
among the processed entries of any run. -/
theorem output_dir_never_matched (tree : List Entry) (e : Entry)
    (rest : List (List Char)) (h : e.dirs = outDirName :: rest) :
    e ∉ matchedEntries tree := by
  intro hmem
  have hskip : skippedRoot e.dirs = true :=
    skippedRoot_of_component (by rw [h]; exact List.mem_cons_self _ _)
  have hp := (List.mem_filter.mp hmem).2
  simp [Bool.and_eq_true, Bool.not_eq_true', hskip] at hp

/-- Witness for C6: the copy `text_files/foo.txt`-style entry
`text_files/foo.svelte` is not processed even when the walk yields it. -/
theorem output_dir_never_matched_witness :
    (⟨[outDirName], "foo.svelte".data, ReadResult.ok [], none⟩ : Entry)
      ∉ matchedEntries [⟨[outDirName], "foo.svelte".data, ReadResult.ok [], none⟩] :=
  output_dir_never_matched _ _ [] rfl

/-- C7: running the script a second time over the same source tree — now
with the populated output directory also appearing in the walk — leaves
the output store exactly as the first run left it: every successful write
rewrites the same content, failed reads write nothing, and the output
directory's own entries are skipped. -/
theorem run_idempotent (tree extra : List Entry) (init : Store)
    (hextra : ∀ e ∈ extra, ∃ rest, e.dirs = outDirName :: rest) :
    (createTextFiles (tree ++ extra) (createTextFiles tree init).1).1
      = (createTextFiles tree init).1 := by
  have hfilter : matchedEntries (tree ++ extra) = matchedEntries tree := by
    show (tree ++ extra).filter _ = tree.filter _
    rw [List.filter_append]
    have hnil :
        extra.filter (fun e => !skippedRoot e.dirs && matchesSuffix e.name) = [] := by
      rw [List.filter_eq_nil_iff]
      intro e he
      obtain ⟨rest, hd⟩ := hextra e he
      have hskip : skippedRoot e.dirs = true :=
        skippedRoot_of_component (by rw [hd]; exact List.mem_cons_self _ _)
      simp [hskip]
    rw [hnil, List.append_nil]
  funext k
  have h1 : (createTextFiles (tree ++ extra) (createTextFiles tree init).1).1 k
      = match lastVal (matchedEntries tree) k with
        | some c => some c
        | none => (createTextFiles tree init).1 k := by
    show ((matchedEntries (tree ++ extra)).foldl processEntry
        ((createTextFiles tree init).1, [])).1 k = _
    rw [hfilter, run_store]
  have h2 : (createTextFiles tree init).1 k
      = match lastVal (matchedEntries tree) k with
        | some c => some c
        | none => init k := by
    show ((matchedEntries tree).foldl processEntry (init, [])).1 k = _
    rw [run_store]
  rw [h1]
  cases hv : lastVal (matchedEntries tree) k with
  | some c => rw [h2, hv]
  | none => rfl

/-- Witness for C7: one root source file, second run seeing the populated
output directory as well. -/
theorem run_idempotent_witness :
    (createTextFiles
        ([⟨[], "foo.svelte".data, ReadResult.ok "body".data, none⟩]
          ++ [⟨[outDirName], "foo.svelte".data, ReadResult.ok "body".data, none⟩])
        (createTextFiles
          [⟨[], "foo.svelte".data, ReadResult.ok "body".data, none⟩] emptyStore).1).1
      = (createTextFiles
          [⟨[], "foo.svelte".data, ReadResult.ok "body".data, none⟩] emptyStore).1 :=
  run_idempotent _ _ emptyStore (by
    intro e he
    rw [List.mem_singleton] at he
    subst he
    exact ⟨[], rfl⟩)

/-- C8: when two matched files collide on the same flattened destination
name, the later-processed file's content is what the destination finally
holds, and its write is logged as a plain `Created` line — no error, no
warning. -/
theorem collision_overwrite (tree : List Entry) (init : Store)
    (l1 l2 l3 : List Entry) (e1 e2 : Entry) (c : List Char)
    (hm : matchedEntries tree = l1 ++ (e1 :: l2) ++ (e2 :: l3))
    (hdest : newFilename e1.dirs e1.name = newFilename e2.dirs e2.name)
    (hread : e2.readResult = ReadResult.ok c)
    (hwrite : e2.writeErr = none)
    (hlater : ∀ e ∈ l3, writesVal e (newFilename e2.dirs e2.name) = none) :
    (createTextFiles tree init).1 (newFilename e2.dirs e2.name) = some c ∧
    logOf e2 = LogEntry.created (outPath e2) := by
  have hw2 : writesVal e2 (newFilename e2.dirs e2.name) = some c := by
    simp [writesVal, hread, hwrite]
  have h3 : lastVal l3 (newFilename e2.dirs e2.name) = none :=
    lastVal_eq_none l3 _ hlater
  have h4 : lastVal (e2 :: l3) (newFilename e2.dirs e2.name) = some c := by
    show (match lastVal l3 (newFilename e2.dirs e2.name) with
          | some c => some c
          | none => writesVal e2 (newFilename e2.dirs e2.name)) = some c
    rw [h3, hw2]
  constructor
  · show ((matchedEntries tree).foldl processEntry (init, [])).1
        (newFilename e2.dirs e2.name) = some c
    rw [hm, run_store, lastVal_append, h4]
  · simp [logOf, hread, hwrite]

/-- Witness for C8: `a/b/c.svelte` and `a/b_c.svelte` both flatten to
`a_b_c.txt`; the later one wins and is logged as created. -/
theorem collision_overwrite_witness :
    (createTextFiles
        [⟨["a".data, "b".data], "c.svelte".data, ReadResult.ok "one".data, none⟩,
         ⟨["a".data], "b_c.svelte".data, ReadResult.ok "two".data, none⟩]
        emptyStore).1
        (newFilename ["a".data] "b_c.svelte".data)
      = some "two".data ∧
    logOf ⟨["a".data], "b_c.svelte".data, ReadResult.ok "two".data, none⟩
      = LogEntry.created
          (outPath ⟨["a".data], "b_c.svelte".data, ReadResult.ok "two".data, none⟩) :=
  collision_overwrite _ emptyStore [] [] []
    ⟨["a".data, "b".data], "c.svelte".data, ReadResult.ok "one".data, none⟩
    ⟨["a".data], "b_c.svelte".data, ReadResult.ok "two".data, none⟩
    "two".data (by decide) (by decide) rfl rfl (by simp)
